import Mathlib

/-!
Shallow embedding of `src/gradient_descent_basics/gradient_descent.py`
(class `GradientDescent`) and verification of the specification's claims.

Modelling conventions:
* Python floats are modelled by exact rationals `ℚ`; numeric literals such as
  `1e-5` become the corresponding rationals.
* A numpy value that is either a bare scalar or a 1-D `ndarray` is modelled by
  the sum type `Value` (the spec's data model only uses scalars and fixed-shape
  vectors); elementwise numpy arithmetic becomes `List.map` / `List.zipWith`.
* `np.linalg.norm(delta) < eps` is rendered in exact arithmetic by comparing
  squares: since the Euclidean norm is nonnegative, `‖d‖ < eps` holds iff
  `0 < eps ∧ ‖d‖² < eps²` (lemma `normLt_iff_sqrt` below proves this rendering
  equivalent to the `Real.sqrt` formulation).
* The `for i in range(max_iter)` loop becomes structural recursion on the
  remaining iteration count; the records are produced in the same order as
  Python's `history.append`.
* The process-wide numpy random source (`np.random.randn`) is modelled by an
  explicit state `RNG`: an arbitrary stream of draws together with a cursor
  that advances on every draw.  `print` calls are modelled by returning the
  list of emitted lines.
* Fallible Python code (raising) is modelled with `Except` / `Option`:
  the constructor's `ValueError` becomes `Except.error`, and calling an absent
  function in `_get_gradient` becomes `Option.none`.
-/

namespace GradientDescentBasics

abbrev Q := ℚ

/-- A numpy value: either a bare Python scalar or a 1-D `ndarray`. -/
inductive Value where
  | scalar (r : Q)
  | arr (l : List Q)
deriving DecidableEq

/-- Elementwise application of a scalar function (numpy ufunc semantics). -/
def vmap (f : Q → Q) : Value → Value
  | .scalar r => .scalar (f r)
  | .arr l => .arr (l.map f)

/-- numpy subtraction: elementwise, broadcasting a scalar against an array. -/
def vsub : Value → Value → Value
  | .scalar a, .scalar b => .scalar (a - b)
  | .scalar a, .arr l => .arr (l.map fun t => a - t)
  | .arr l, .scalar b => .arr (l.map fun t => t - b)
  | .arr l1, .arr l2 => .arr (List.zipWith (fun a b => a - b) l1 l2)

/-- Addition `x + c` of a scalar `c` (numpy broadcasts the scalar). -/
def vaddC (v : Value) (c : Q) : Value := vmap (fun t => t + c) v

/-- Scaling `c * x` by a scalar `c`. -/
def vscale (c : Q) (v : Value) : Value := vmap (fun t => c * t) v

/-- Division `x / c` by a scalar `c`. -/
def vdivC (v : Value) (c : Q) : Value := vmap (fun t => t / c) v

/-- The underlying list of entries (a scalar is a single entry). -/
def Value.toList : Value → List Q
  | .scalar r => [r]
  | .arr l => l

/-- Promotion `np.array([delta]) if not isinstance(delta, np.ndarray) else delta`:
scalars are promoted to single-element arrays, arrays are left alone. -/
def promote : Value → Value
  | .scalar r => .arr [r]
  | .arr l => .arr l

/-- Sum of squares of the entries. -/
def sumSq (l : List Q) : Q := (l.map fun t => t * t).sum

/-- Test `np.linalg.norm(v) < eps` in exact arithmetic (squares compared, see the
file header; `normLt_iff_sqrt` justifies the rendering). -/
def normLt (v : Value) (eps : Q) : Bool :=
  decide (0 < eps) && decide (sumSq v.toList < eps * eps)

/-- The class `GradientDescent`: holds the two optional function references. -/
structure GradientDescent where
  func : Option (Value → Value)
  grad_func : Option (Value → Value)

/-- Constructor `GradientDescent.__init__`: raises `ValueError` when both `func` and
`grad_func` are `None`, otherwise stores both references unevaluated. -/
def GradientDescent.make (func grad_func : Option (Value → Value)) :
    Except String GradientDescent :=
  match func, grad_func with
  | none, none => .error "Either func or grad_func must be provided"
  | f, g => .ok { func := f, grad_func := g }

/-- The fixed perturbation `eps = 1e-5` used by the central difference. -/
def fd_eps : Q := 1 / 100000

/-- Method `GradientDescent._get_gradient`: the provided gradient when present, else
the central finite difference of `func`; `none` models the `TypeError` Python
would raise if both functions were absent. -/
def GradientDescent.getGradient (gd : GradientDescent) (x : Value) : Option Value :=
  match gd.grad_func with
  | some g => some (g x)
  | none =>
    match gd.func with
    | some f =>
        some (vdivC (vsub (f (vaddC x fd_eps)) (f (vaddC x (-fd_eps)))) (2 * fd_eps))
    | none => none

/-- One entry of `history`: the dict `{"x": x, "grad": grad}` appended after
the update. -/
structure HistRec where
  x : Value
  grad : Value
deriving DecidableEq

/-- The `for i in range(max_iter)` body of `optimize`, by recursion on the
remaining iterations.  Each iteration: acquire the gradient, form
`delta = lr * grad`, promote `delta`; if `norm(delta) < eps` break with the
converged flag set, the current `x` unchanged and nothing recorded; otherwise
promote `x`, update `x ← x − delta` and record `{x, grad}`.  Returns the final
point, the history produced (in append order) and the converged flag. -/
def optimizeLoop (gd : GradientDescent) (lr eps : Q) :
    Nat → Value → Option (Value × List HistRec × Bool)
  | 0, x => some (x, [], false)
  | n + 1, x =>
    match gd.getGradient x with
    | none => none
    | some grad =>
      let deltaA := promote (vscale lr grad)
      if normLt deltaA eps then
        some (x, [], true)
      else
        let x2 := vsub (promote x) deltaA
        match optimizeLoop gd lr eps n x2 with
        | none => none
        | some (xf, h, c) => some (xf, { x := x2, grad := grad } :: h, c)

/-- The process-wide numpy random source: a stream of draws and a cursor. -/
structure RNG where
  stream : Nat → Q
  idx : Nat

/-- Draw `k` values from the global source, advancing its cursor. -/
def RNG.draw (r : RNG) (k : Nat) : List Q × RNG :=
  ((List.range k).map fun j => r.stream (r.idx + j), { r with idx := r.idx + k })

/-- The start-resolution prologue of `optimize`: use `start` when given, else
`np.random.randn(*shape)` when `shape` is given, else a random scalar
`np.random.randn()`. -/
def resolveStart (start : Option Value) (shape : Option Nat) (rng : RNG) :
    Value × RNG :=
  match start with
  | some v => (v, rng)
  | none =>
    match shape with
    | some k =>
      let p := rng.draw k
      (.arr p.1, p.2)
    | none =>
      let p := rng.draw 1
      (.scalar (p.1.headD 0), p.2)

/-- The line printed at the convergence break. -/
def convergedMsg (i : Nat) : String := s!"Converged in {i} iterations. Breaking..."

/-- The line printed after the loop when the run did not converge. -/
def notConvergedMsg (m : Nat) : String := s!"Not converged after {m} iterations."

/-- Method `GradientDescent.optimize`: resolve the start (possibly consuming the
global random source), run the loop, and return `(x, history)` together with
the random-source state after the call and the printed lines.  At the
convergence break `i` equals the number of completed iterations, which is the
length of the history accumulated so far. -/
def GradientDescent.optimize (gd : GradientDescent) (start : Option Value)
    (lr : Q) (max_iter : Nat) (eps : Q) (shape : Option Nat) (rng : RNG) :
    Option ((Value × List HistRec) × RNG × List String) :=
  let p := resolveStart start shape rng
  match optimizeLoop gd lr eps max_iter p.1 with
  | none => none
  | some (x, h, c) =>
    let lines := if c then [convergedMsg h.length] else [notConvergedMsg max_iter]
    some ((x, h), p.2, lines)

/-- A `GradientDescent` as the constructor guarantees it: at least one of the
two functions is present. -/
def Valid (gd : GradientDescent) : Prop :=
  gd.func.isSome ∨ gd.grad_func.isSome

/-- The objective `f(x) = x²` of the spec's sanity properties. -/
def squareFn : Value → Value := vmap fun t => t * t

/-- Its explicit gradient `x ↦ 2x`. -/
def doubleFn : Value → Value := vmap fun t => 2 * t

/-- The optimizer built from `f(x) = x²` alone (finite-difference mode). -/
def gdFD : GradientDescent := { func := some squareFn, grad_func := none }

/-- The optimizer built from `f(x) = x²` with the explicit gradient `2x`. -/
def gdExplicit : GradientDescent :=
  { func := some squareFn, grad_func := some doubleFn }

/-- The entry of a scalar or of a single-element array. -/
def headVal : Value → Q
  | .scalar r => r
  | .arr l => l.headD 0

/-- The relation between consecutive history records: the later record's `x`
is the earlier one's `x` minus `lr` times the later record's gradient (with
the source's scalar promotion applied to the step). -/
def stepRel (lr : Q) (a b : HistRec) : Prop :=
  b.x = vsub a.x (promote (vscale lr b.grad))

/-- Predicate: `v` represents the number `r`, either as a bare scalar or as the
single-element array the loop promotes it to. -/
def Rep (v : Value) (r : Q) : Prop :=
  v = .scalar r ∨ v = .arr [r]

/-- The gradient routine behaves as `x ↦ 2x` on scalars and on single-element
arrays (true for `f(x) = x²` both with the explicit gradient and with the
central finite difference, which is exact on quadratics). -/
def GradTwoX (gd : GradientDescent) : Prop :=
  ∀ r : Q, gd.getGradient (.scalar r) = some (.scalar (2 * r)) ∧
    gd.getGradient (.arr [r]) = some (.arr [2 * r])

/-- The gradient routine maps scalars to scalars and single-element arrays to
single-element arrays (scalar-mode operation). -/
def PreservesScalarShape (gd : GradientDescent) : Prop :=
  ∀ r : Q, (∃ s, gd.getGradient (.scalar r) = some (.scalar s)) ∧
    (∃ s, gd.getGradient (.arr [r]) = some (.arr [s]))

/-- A concrete global random source used in witnesses: all draws are `0`,
cursor at the start. -/
def rng0 : RNG := { stream := fun _ => 0, idx := 0 }

/-! ### Helper lemmas -/

theorem sumSq_nonneg (l : List Q) : 0 ≤ sumSq l := by
  refine List.sum_nonneg ?_
  intro a ha
  obtain ⟨t, _, rfl⟩ := List.mem_map.1 ha
  exact mul_self_nonneg t

/-- Justification of the exact-arithmetic rendering of the convergence test:
`normLt v eps` holds iff the real Euclidean norm `√(Σ vᵢ²)` is strictly below
`eps`. -/
theorem normLt_iff_sqrt (v : Value) (eps : Q) :
    normLt v eps = true ↔ Real.sqrt ((sumSq v.toList : Q) : ℝ) < (eps : ℝ) := by
  unfold normLt
  rw [Bool.and_eq_true, decide_eq_true_eq, decide_eq_true_eq]
  constructor
  · rintro ⟨he, hs⟩
    have he2 : (0 : ℝ) < (eps : ℝ) := by exact_mod_cast he
    rw [Real.sqrt_lt' he2, sq]
    exact_mod_cast hs
  · intro h
    have he2 : (0 : ℝ) < (eps : ℝ) :=
      lt_of_le_of_lt (Real.sqrt_nonneg _) h
    have he : (0 : Q) < eps := by exact_mod_cast he2
    refine ⟨he, ?_⟩
    rw [Real.sqrt_lt' he2, sq] at h
    exact_mod_cast h

theorem zipWith_sub_map (f1 f2 : Q → Q) (l : List Q) :
    List.zipWith (fun a b => a - b) (l.map f1) (l.map f2) =
      l.map fun t => f1 t - f2 t := by
  induction l with
  | nil => rfl
  | cons a t ih => simp [ih]

theorem optimizeLoop_zero (gd : GradientDescent) (lr eps : Q) (x : Value) :
    optimizeLoop gd lr eps 0 x = some (x, [], false) := rfl

theorem optimizeLoop_succ (gd : GradientDescent) (lr eps : Q) (n : Nat)
    (x : Value) :
    optimizeLoop gd lr eps (n + 1) x =
      match gd.getGradient x with
      | none => none
      | some grad =>
        let deltaA := promote (vscale lr grad)
        if normLt deltaA eps then some (x, [], true)
        else
          let x2 := vsub (promote x) deltaA
          match optimizeLoop gd lr eps n x2 with
          | none => none
          | some (xf, h, c) => some (xf, { x := x2, grad := grad } :: h, c) := rfl

theorem promote_vsub_promote (v w : Value) :
    promote (vsub (promote v) (promote w)) = vsub (promote v) (promote w) := by
  cases v <;> cases w <;> rfl

theorem getGradient_total (gd : GradientDescent) (hv : Valid gd) (x : Value) :
    ∃ g, gd.getGradient x = some g := by
  rcases hgf : gd.grad_func with _ | g
  · rcases hf : gd.func with _ | f
    · rcases hv with h | h
      · rw [hf] at h; simp at h
      · rw [hgf] at h; simp at h
    · exact ⟨vdivC (vsub (f (vaddC x fd_eps)) (f (vaddC x (-fd_eps))))
        (2 * fd_eps), by simp [GradientDescent.getGradient, hgf, hf]⟩
  · exact ⟨g x, by simp [GradientDescent.getGradient, hgf]⟩

theorem optimizeLoop_total (gd : GradientDescent) (hv : Valid gd)
    (lr eps : Q) :
    ∀ (n : Nat) (x : Value),
      ∃ xf h c, optimizeLoop gd lr eps n x = some (xf, h, c) := by
  intro n
  induction n with
  | zero => exact fun x => ⟨x, [], false, rfl⟩
  | succ n ih =>
    intro x
    obtain ⟨g, hg⟩ := getGradient_total gd hv x
    by_cases hb : normLt (promote (vscale lr g)) eps = true
    · exact ⟨x, [], true, by rw [optimizeLoop_succ]; simp [hg, hb]⟩
    · rw [Bool.not_eq_true] at hb
      obtain ⟨xf, h, c, hrec⟩ := ih (vsub (promote x) (promote (vscale lr g)))
      exact ⟨xf, ⟨vsub (promote x) (promote (vscale lr g)), g⟩ :: h, c,
        by rw [optimizeLoop_succ]; simp [hg, hb, hrec]⟩

theorem optimizeLoop_length (gd : GradientDescent) (lr eps : Q) :
    ∀ (n : Nat) (x xf : Value) (h : List HistRec) (c : Bool),
      optimizeLoop gd lr eps n x = some (xf, h, c) →
      (c = false → h.length = n) ∧ (c = true → h.length < n) := by
  intro n
  induction n with
  | zero =>
    intro x xf h c hsome
    rw [optimizeLoop_zero] at hsome
    simp only [Option.some.injEq, Prod.mk.injEq] at hsome
    obtain ⟨rfl, rfl, rfl⟩ := hsome
    exact ⟨fun _ => rfl, fun hc => by simp at hc⟩
  | succ n ih =>
    intro x xf h c hsome
    rw [optimizeLoop_succ] at hsome
    cases hg : gd.getGradient x with
    | none => rw [hg] at hsome; simp at hsome
    | some g =>
      rw [hg] at hsome
      by_cases hb : normLt (promote (vscale lr g)) eps = true
      · simp only [hb, if_true] at hsome
        simp only [Option.some.injEq, Prod.mk.injEq] at hsome
        obtain ⟨rfl, rfl, rfl⟩ := hsome
        exact ⟨fun hc => by simp at hc, fun _ => Nat.succ_pos n⟩
      · rw [Bool.not_eq_true] at hb
        simp only [hb, Bool.false_eq_true, if_false] at hsome
        cases hrec : optimizeLoop gd lr eps n
            (vsub (promote x) (promote (vscale lr g))) with
        | none => rw [hrec] at hsome; simp at hsome
        | some p =>
          obtain ⟨xf2, h2, c2⟩ := p
          rw [hrec] at hsome
          simp only [Option.some.injEq, Prod.mk.injEq] at hsome
          obtain ⟨rfl, rfl, rfl⟩ := hsome
          obtain ⟨hf, ht⟩ := ih _ _ _ _ hrec
          exact ⟨fun hc => by simp [hf hc],
            fun hc => by simpa [Nat.succ_lt_succ_iff] using
              Nat.succ_lt_succ (ht hc)⟩

theorem optimizeLoop_chain (gd : GradientDescent) (lr eps : Q) :
    ∀ (n : Nat) (v xf : Value) (h : List HistRec) (c : Bool),
      optimizeLoop gd lr eps n v = some (xf, h, c) →
      List.Chain' (stepRel lr) h ∧
      (∀ a, h.head? = some a →
        a.x = vsub (promote v) (promote (vscale lr a.grad))) ∧
      (∀ b, h.getLast? = some b → xf = b.x) ∧
      (h = [] → xf = v) := by
  intro n
  induction n with
  | zero =>
    intro v xf h c hsome
    rw [optimizeLoop_zero] at hsome
    simp only [Option.some.injEq, Prod.mk.injEq] at hsome
    obtain ⟨rfl, rfl, rfl⟩ := hsome
    refine ⟨List.chain'_nil, ?_, ?_, fun _ => rfl⟩
    · intro a ha; simp at ha
    · intro b hbl; simp at hbl
  | succ n ih =>
    intro v xf h c hsome
    rw [optimizeLoop_succ] at hsome
    cases hg : gd.getGradient v with
    | none => rw [hg] at hsome; simp at hsome
    | some g =>
      rw [hg] at hsome
      by_cases hb : normLt (promote (vscale lr g)) eps = true
      · simp only [hb, if_true] at hsome
        simp only [Option.some.injEq, Prod.mk.injEq] at hsome
        obtain ⟨rfl, rfl, rfl⟩ := hsome
        refine ⟨List.chain'_nil, ?_, ?_, fun _ => rfl⟩
        · intro a ha; simp at ha
        · intro b hbl; simp at hbl
      · rw [Bool.not_eq_true] at hb
        simp only [hb, Bool.false_eq_true, if_false] at hsome
        cases hrec : optimizeLoop gd lr eps n
            (vsub (promote v) (promote (vscale lr g))) with
        | none => rw [hrec] at hsome; simp at hsome
        | some p =>
          obtain ⟨xf2, h2, c2⟩ := p
          rw [hrec] at hsome
          simp only [Option.some.injEq, Prod.mk.injEq] at hsome
          obtain ⟨rfl, rfl, rfl⟩ := hsome
          obtain ⟨hch, hhead, hlast, hemp⟩ := ih _ _ _ _ hrec
          refine ⟨?_, ?_, ?_, ?_⟩
          · refine List.Chain'.cons' hch ?_
            intro y hy
            rw [Option.mem_def] at hy
            have hx := hhead y hy
            rw [promote_vsub_promote] at hx
            simp only [stepRel]
            exact hx
          · intro a ha
            simp only [List.head?_cons, Option.some.injEq] at ha
            subst ha
            rfl
          · intro b hbl
            cases h2 with
            | nil =>
              simp only [List.getLast?_singleton, Option.some.injEq] at hbl
              subst hbl
              exact hemp rfl
            | cons a t =>
              rw [List.getLast?_cons_cons] at hbl
              exact hlast b hbl
          · intro habs; simp at habs

theorem optimizeLoop_singleton (gd : GradientDescent) (lr eps : Q)
    (hp : PreservesScalarShape gd) :
    ∀ (n : Nat) (v : Value) (r : Q), Rep v r →
      ∀ (xf : Value) (h : List HistRec) (c : Bool),
        optimizeLoop gd lr eps n v = some (xf, h, c) →
        h ≠ [] → ∃ s, xf = .arr [s] := by
  intro n
  induction n with
  | zero =>
    intro v r _ xf h c hsome hne
    rw [optimizeLoop_zero] at hsome
    simp only [Option.some.injEq, Prod.mk.injEq] at hsome
    obtain ⟨rfl, rfl, rfl⟩ := hsome
    exact absurd rfl hne
  | succ n ih =>
    intro v r hrep xf h c hsome hne
    rw [optimizeLoop_succ] at hsome
    rcases hrep with rfl | rfl
    · obtain ⟨s, hg⟩ := (hp r).1
      rw [hg] at hsome
      simp only [vscale, vmap, promote, vsub, List.zipWith, List.map_cons,
        List.map_nil] at hsome
      by_cases hb : normLt (.arr [lr * s]) eps = true
      · simp only [hb, if_true, Option.some.injEq, Prod.mk.injEq] at hsome
        obtain ⟨rfl, rfl, rfl⟩ := hsome
        exact absurd rfl hne
      · rw [Bool.not_eq_true] at hb
        simp only [hb, Bool.false_eq_true, if_false] at hsome
        cases hrec : optimizeLoop gd lr eps n (.arr [r - lr * s]) with
        | none => rw [hrec] at hsome; simp at hsome
        | some p =>
          obtain ⟨xf2, h2, c2⟩ := p
          rw [hrec] at hsome
          simp only [Option.some.injEq, Prod.mk.injEq] at hsome
          obtain ⟨rfl, rfl, rfl⟩ := hsome
          cases h2 with
          | nil =>
            have hemp := (optimizeLoop_chain gd lr eps n _ _ _ _ hrec).2.2.2
            exact ⟨r - lr * s, hemp rfl⟩
          | cons a t =>
            exact ih (.arr [r - lr * s]) (r - lr * s) (Or.inr rfl) _ _ _ hrec
              (by simp)
    · obtain ⟨s, hg⟩ := (hp r).2
      rw [hg] at hsome
      simp only [vscale, vmap, promote, vsub, List.zipWith, List.map_cons,
        List.map_nil] at hsome
      by_cases hb : normLt (.arr [lr * s]) eps = true
      · simp only [hb, if_true, Option.some.injEq, Prod.mk.injEq] at hsome
        obtain ⟨rfl, rfl, rfl⟩ := hsome
        exact absurd rfl hne
      · rw [Bool.not_eq_true] at hb
        simp only [hb, Bool.false_eq_true, if_false] at hsome
        cases hrec : optimizeLoop gd lr eps n (.arr [r - lr * s]) with
        | none => rw [hrec] at hsome; simp at hsome
        | some p =>
          obtain ⟨xf2, h2, c2⟩ := p
          rw [hrec] at hsome
          simp only [Option.some.injEq, Prod.mk.injEq] at hsome
          obtain ⟨rfl, rfl, rfl⟩ := hsome
          cases h2 with
          | nil =>
            have hemp := (optimizeLoop_chain gd lr eps n _ _ _ _ hrec).2.2.2
            exact ⟨r - lr * s, hemp rfl⟩
          | cons a t =>
            exact ih (.arr [r - lr * s]) (r - lr * s) (Or.inr rfl) _ _ _ hrec
              (by simp)

theorem abs_step_le (lr r : Q) (hl : 0 < lr) (hl1 : lr ≤ 1) :
    |r - lr * (2 * r)| ≤ |r| := by
  have he : r - lr * (2 * r) = (1 - 2 * lr) * r := by ring
  rw [he, abs_mul]
  have h1 : |1 - 2 * lr| ≤ 1 := by
    rw [abs_le]
    constructor <;> linarith
  calc |1 - 2 * lr| * |r| ≤ 1 * |r| :=
        mul_le_mul_of_nonneg_right h1 (abs_nonneg r)
    _ = |r| := one_mul _

theorem optimizeLoop_abs_mono (gd : GradientDescent) (lr eps : Q)
    (hg2 : GradTwoX gd) (hl : 0 < lr) (hl1 : lr ≤ 1) :
    ∀ (n : Nat) (v : Value) (r : Q), Rep v r →
      ∀ (xf : Value) (h : List HistRec) (c : Bool),
        optimizeLoop gd lr eps n v = some (xf, h, c) →
        List.Chain' (fun a b => |headVal b.x| ≤ |headVal a.x|) h ∧
        (∀ a, h.head? = some a → |headVal a.x| ≤ |r|) := by
  intro n
  induction n with
  | zero =>
    intro v r _ xf h c hsome
    rw [optimizeLoop_zero] at hsome
    simp only [Option.some.injEq, Prod.mk.injEq] at hsome
    obtain ⟨rfl, rfl, rfl⟩ := hsome
    exact ⟨List.chain'_nil, fun a ha => by simp at ha⟩
  | succ n ih =>
    intro v r hrep xf h c hsome
    rw [optimizeLoop_succ] at hsome
    have hg : gd.getGradient v =
        some (if v = .scalar r then .scalar (2 * r) else .arr [2 * r]) := by
      rcases hrep with rfl | rfl
      · simp [(hg2 r).1]
      · rcases eq_or_ne (Value.arr [r]) (.scalar r) with he | hne
        · simp at he
        · rw [if_neg hne]
          exact (hg2 r).2
    have hδ : promote (vscale lr
        (if v = .scalar r then Value.scalar (2 * r) else .arr [2 * r])) =
        .arr [lr * (2 * r)] := by
      by_cases hv : v = .scalar r <;> simp [hv, vscale, vmap, promote]
    have hpv : promote v = .arr [r] := by
      rcases hrep with rfl | rfl <;> rfl
    rw [hg] at hsome
    simp only [hδ, hpv] at hsome
    by_cases hb : normLt (.arr [lr * (2 * r)]) eps = true
    · simp only [hb, if_true, Option.some.injEq, Prod.mk.injEq] at hsome
      obtain ⟨rfl, rfl, rfl⟩ := hsome
      exact ⟨List.chain'_nil, fun a ha => by simp at ha⟩
    · rw [Bool.not_eq_true] at hb
      simp only [hb, Bool.false_eq_true, if_false, vsub, List.zipWith]
        at hsome
      cases hrec : optimizeLoop gd lr eps n (.arr [r - lr * (2 * r)]) with
      | none => rw [hrec] at hsome; simp at hsome
      | some p =>
        obtain ⟨xf2, h2, c2⟩ := p
        rw [hrec] at hsome
        simp only [Option.some.injEq, Prod.mk.injEq] at hsome
        obtain ⟨rfl, rfl, rfl⟩ := hsome
        obtain ⟨hch, hhead⟩ := ih (.arr [r - lr * (2 * r)])
          (r - lr * (2 * r)) (Or.inr rfl) _ _ _ hrec
        have hkey := abs_step_le lr r hl hl1
        refine ⟨?_, ?_⟩
        · refine List.Chain'.cons' hch ?_
          intro y hy
          rw [Option.mem_def] at hy
          have := hhead y hy
          simpa [headVal] using this
        · intro a ha
          simp only [List.head?_cons, Option.some.injEq] at ha
          subst ha
          simpa [headVal] using hkey

theorem gradTwoX_gdExplicit : GradTwoX gdExplicit := by
  intro r
  constructor <;>
    simp [gdExplicit, GradientDescent.getGradient, doubleFn, vmap]

theorem gradTwoX_gdFD : GradTwoX gdFD := by
  intro r
  constructor
  · show GradientDescent.getGradient _ _ = _
    simp only [gdFD, GradientDescent.getGradient, squareFn, vmap, vaddC,
      vsub, vdivC, Option.some.injEq, Value.scalar.injEq]
    rw [div_eq_iff (by norm_num [fd_eps])]
    ring
  · show GradientDescent.getGradient _ _ = _
    simp only [gdFD, GradientDescent.getGradient, squareFn, vmap, vaddC,
      vsub, vdivC, List.map_cons, List.map_nil, List.zipWith,
      Option.some.injEq, Value.arr.injEq, List.cons.injEq, and_true]
    rw [div_eq_iff (by norm_num [fd_eps])]
    ring

theorem preservesScalarShape_gdExplicit : PreservesScalarShape gdExplicit :=
  fun r => ⟨⟨2 * r, (gradTwoX_gdExplicit r).1⟩, ⟨2 * r, (gradTwoX_gdExplicit r).2⟩⟩

/-- Concrete one-iteration run of the explicit-gradient optimizer from
`x = 1` with `lr = 1/10`: one update to `x = 4/5`, no convergence. -/
theorem run1_loop_eval :
    optimizeLoop gdExplicit (1 / 10) (1 / 1000000) 1 (.scalar 1) =
      some (.arr [4 / 5], [⟨.arr [4 / 5], .scalar 2⟩], false) := by
  rw [optimizeLoop_succ]
  have hg : gdExplicit.getGradient (.scalar 1) = some (.scalar 2) := by
    have h2 := (gradTwoX_gdExplicit 1).1
    norm_num at h2
    exact h2
  rw [hg]
  norm_num [normLt, promote, vscale, vmap, sumSq, Value.toList, vsub,
    List.zipWith, optimizeLoop_zero, List.sum_cons, List.sum_nil]

theorem run1_eval :
    gdExplicit.optimize (some (.scalar 1)) (1 / 10) 1 (1 / 1000000) none rng0 =
      some ((.arr [4 / 5], [⟨.arr [4 / 5], .scalar 2⟩]), rng0,
        [notConvergedMsg 1]) := by
  simp only [GradientDescent.optimize, resolveStart]
  rw [run1_loop_eval]
  simp

/-- The same run in finite-difference mode: the central difference is exact on
`x²`, so the trajectory coincides. -/
theorem run1_fd_loop_eval :
    optimizeLoop gdFD (1 / 10) (1 / 1000000) 1 (.scalar 1) =
      some (.arr [4 / 5], [⟨.arr [4 / 5], .scalar 2⟩], false) := by
  rw [optimizeLoop_succ]
  have hg : gdFD.getGradient (.scalar 1) = some (.scalar 2) := by
    have h2 := (gradTwoX_gdFD 1).1
    norm_num at h2
    exact h2
  rw [hg]
  norm_num [normLt, promote, vscale, vmap, sumSq, Value.toList, vsub,
    List.zipWith, optimizeLoop_zero, List.sum_cons, List.sum_nil]

theorem run1_fd_eval :
    gdFD.optimize (some (.scalar 1)) (1 / 10) 1 (1 / 1000000) none rng0 =
      some ((.arr [4 / 5], [⟨.arr [4 / 5], .scalar 2⟩]), rng0,
        [notConvergedMsg 1]) := by
  simp only [GradientDescent.optimize, resolveStart]
  rw [run1_fd_loop_eval]
  simp

/-- Converging run: from `x = 0` the gradient of `x²` is `0`, so the very
first delta has norm `0 < eps` and the loop breaks at iteration `0`. -/
theorem loop_zero_point_eval :
    optimizeLoop gdExplicit 1 1 1 (.scalar 0) = some (.scalar 0, [], true) := by
  rw [optimizeLoop_succ]
  have hg : gdExplicit.getGradient (.scalar 0) = some (.scalar 0) := by
    have h2 := (gradTwoX_gdExplicit 0).1
    norm_num at h2
    exact h2
  rw [hg]
  norm_num [normLt, promote, vscale, vmap, sumSq, Value.toList,
    List.sum_cons, List.sum_nil]

/-! ### Claims -/

/-- C3: construction fails with the `ValueError` exactly when both the
objective and the gradient function are absent; any construction with at least
one present succeeds, storing both references.  The statement is uniform in
arbitrary `f`, `g`: `make` never applies either function, so the check happens
at construction time, before any evaluation. -/
theorem c3_construction_validation (f g : Option (Value → Value)) :
    GradientDescent.make none none =
      .error "Either func or grad_func must be provided" ∧
    (f.isSome ∨ g.isSome →
      GradientDescent.make f g = .ok { func := f, grad_func := g }) := by
  refine ⟨rfl, fun h => ?_⟩
  rcases f with _ | f
  · rcases g with _ | g
    · simp at h
    · rfl
  · rfl

theorem c3_construction_validation_witness :
    GradientDescent.make none none =
      .error "Either func or grad_func must be provided" ∧
    GradientDescent.make (some squareFn) none =
      .ok { func := some squareFn, grad_func := none } :=
  ⟨(c3_construction_validation (some squareFn) none).1,
    (c3_construction_validation (some squareFn) none).2 (Or.inl rfl)⟩

/-- C9: in gradient-free mode (objective `x²` only), gradient acquisition
at `x = 2` is within `1e-3` of `4`; in the exact arithmetic of the model the
central difference is exactly `4`. -/
theorem c9_finite_difference_accuracy :
    ∃ r : Q, gdFD.getGradient (.scalar 2) = some (.scalar r) ∧
      |r - 4| < 1 / 1000 := by
  refine ⟨4, ?_, by norm_num⟩
  show GradientDescent.getGradient _ _ = _
  norm_num [GradientDescent.getGradient, gdFD, squareFn, vmap, vaddC, vsub,
    vdivC, fd_eps]

/-- C2: gradient acquisition returns `grad_func x` whenever a gradient
function was supplied; with no gradient function it returns the central
finite difference `(f(x + 1e-5) − f(x − 1e-5)) / (2·1e-5)` of the objective,
elementwise when `x` is a vector (stated for an elementwise objective
`vmap φ`). -/
theorem c2_getGradient_dispatch (gd1 gd2 : GradientDescent)
    (g : Value → Value) (φ : Q → Q) (x : Value) (r : Q) (l : List Q) :
    (gd1.grad_func = some g → gd1.getGradient x = some (g x)) ∧
    (gd2.grad_func = none → gd2.func = some (vmap φ) →
      gd2.getGradient (.scalar r) =
        some (.scalar ((φ (r + fd_eps) - φ (r - fd_eps)) / (2 * fd_eps))) ∧
      gd2.getGradient (.arr l) =
        some (.arr (l.map fun t =>
          (φ (t + fd_eps) - φ (t - fd_eps)) / (2 * fd_eps)))) := by
  constructor
  · intro h
    simp [GradientDescent.getGradient, h]
  · intro h1 h2
    refine ⟨?_, ?_⟩
    · simp [GradientDescent.getGradient, h1, h2, vmap, vaddC, vsub, vdivC,
        sub_eq_add_neg]
    · simp [GradientDescent.getGradient, h1, h2, vmap, vaddC, vsub, vdivC,
        List.map_map, zipWith_sub_map, Function.comp, sub_eq_add_neg]

theorem c2_getGradient_dispatch_witness :
    gdExplicit.getGradient (.scalar 3) = some (doubleFn (.scalar 3)) ∧
    gdFD.getGradient (.arr [2, 3]) = some (.arr [4, 6]) := by
  constructor
  · exact (c2_getGradient_dispatch gdExplicit gdFD doubleFn (fun t => t * t)
      (.scalar 3) 0 []).1 rfl
  · have h := ((c2_getGradient_dispatch gdExplicit gdFD doubleFn
      (fun t => t * t) (.scalar 3) 0 [2, 3]).2 rfl rfl).2
    rw [h]
    norm_num [fd_eps]

/-- C1: one loop iteration first acquires the gradient at the current `x`
and forms `delta = lr·grad`; if `‖delta‖ < eps` the loop stops immediately
with `x` unchanged and no record appended (converged flag set); otherwise `x`
is updated to `x − delta` (with scalar promotion) and the record containing
the updated `x` and the gradient used is appended ahead of the records of the
remaining iterations. -/
theorem c1_iteration_step (gd : GradientDescent) (lr eps : Q) (n : Nat)
    (x grad : Value) (hg : gd.getGradient x = some grad) :
    optimizeLoop gd lr eps (n + 1) x =
      if normLt (promote (vscale lr grad)) eps then some (x, [], true)
      else
        (optimizeLoop gd lr eps n
            (vsub (promote x) (promote (vscale lr grad)))).map
          fun p =>
            (p.1,
              { x := vsub (promote x) (promote (vscale lr grad)),
                grad := grad } :: p.2.1,
              p.2.2) := by
  rw [optimizeLoop]
  simp only [hg]
  by_cases hb : normLt (promote (vscale lr grad)) eps = true
  · simp [hb]
  · rw [Bool.not_eq_true] at hb
    simp only [hb, Bool.false_eq_true, if_false]
    cases hr : optimizeLoop gd lr eps n
        (vsub (promote x) (promote (vscale lr grad))) with
    | none => simp
    | some p => simp

theorem c1_iteration_step_witness :
    optimizeLoop gdExplicit 1 3 1 (.scalar 1) = some (.scalar 1, [], true) := by
  have h := c1_iteration_step gdExplicit 1 3 0 (.scalar 1)
    (doubleFn (.scalar 1)) rfl
  rw [h]
  norm_num [normLt, promote, vscale, vmap, doubleFn, sumSq, Value.toList]

/-- C4: with a valid optimizer and positive `max_iter` the call returns
normally; when the loop never hit the convergence break (flag `false`) the
history has length exactly `max_iter`, and whenever it converged (flag `true`)
the history is strictly shorter than `max_iter`. -/
theorem c4_nonconvergence_is_normal (gd : GradientDescent) (x : Value)
    (lr eps : Q) (n : Nat) (shape : Option Nat) (rng : RNG)
    (hv : Valid gd) (hn : 0 < n) :
    ∃ xf h c rng2 lines,
      optimizeLoop gd lr eps n x = some (xf, h, c) ∧
      gd.optimize (some x) lr n eps shape rng = some ((xf, h), rng2, lines) ∧
      (c = false → h.length = n) ∧
      (c = true → h.length < n) := by
  obtain ⟨xf, h, c, hloop⟩ := optimizeLoop_total gd hv lr eps n x
  obtain ⟨hf, ht⟩ := optimizeLoop_length gd lr eps n x xf h c hloop
  refine ⟨xf, h, c, rng,
    if c then [convergedMsg h.length] else [notConvergedMsg n],
    hloop, ?_, hf, ht⟩
  simp only [GradientDescent.optimize, resolveStart, hloop]

theorem c4_nonconvergence_is_normal_witness :
    gdExplicit.optimize (some (.scalar 1)) (1 / 10) 1 (1 / 1000000) none rng0 =
      some ((.arr [4 / 5], [⟨.arr [4 / 5], .scalar 2⟩]), rng0,
        [notConvergedMsg 1]) ∧
    ([(⟨.arr [4 / 5], .scalar 2⟩ : HistRec)] : List HistRec).length = 1 := by
  obtain ⟨xf, h, c, rng2, lines, hloop, hopt, hf, ht⟩ :=
    c4_nonconvergence_is_normal gdExplicit (.scalar 1) (1 / 10) (1 / 1000000)
      1 none rng0 (Or.inl rfl) (by decide)
  have e := run1_loop_eval.symm.trans hloop
  simp only [Option.some.injEq, Prod.mk.injEq] at e
  obtain ⟨rfl, rfl, rfl⟩ := e
  exact ⟨run1_eval, hf rfl⟩

/-- C5: with a valid optimizer and positive `max_iter`, `optimize` always
returns a `(point, history)` value (never an error), and the loop runs at most
`max_iter` iterations, so the history length is at most `max_iter`. -/
theorem c5_terminates_with_result (gd : GradientDescent)
    (start : Option Value) (lr eps : Q) (n : Nat) (shape : Option Nat)
    (rng : RNG) (hv : Valid gd) (hn : 0 < n) :
    ∃ xf h rng2 lines,
      gd.optimize start lr n eps shape rng = some ((xf, h), rng2, lines) ∧
      h.length ≤ n := by
  obtain ⟨xf, h, c, hloop⟩ :=
    optimizeLoop_total gd hv lr eps n (resolveStart start shape rng).1
  obtain ⟨hf, ht⟩ := optimizeLoop_length gd lr eps n _ xf h c hloop
  refine ⟨xf, h, (resolveStart start shape rng).2,
    if c then [convergedMsg h.length] else [notConvergedMsg n], ?_, ?_⟩
  · simp only [GradientDescent.optimize, hloop]
  · cases c with
    | false => exact le_of_eq (hf rfl)
    | true => exact le_of_lt (ht rfl)

theorem c5_terminates_with_result_witness :
    ∃ xf h rng2 lines,
      gdFD.optimize (some (.scalar 2)) 1 3 (1 / 2) none rng0 =
        some ((xf, h), rng2, lines) ∧
      h.length ≤ 3 :=
  c5_terminates_with_result gdFD (some (.scalar 2)) 1 (1 / 2) 3 none rng0
    (Or.inl rfl) (by decide)

/-- C6: with a bare scalar start, if the very first delta already has norm
below `eps` then `optimize` returns the scalar start unchanged and
un-promoted (empty history); whereas in scalar mode (shape-preserving
gradients) any run that applied at least one update returns a single-element
array. -/
theorem c6_return_representation (gd : GradientDescent)
    (r r2 lr lr2 eps eps2 : Q) (n m : Nat) (shape shape2 : Option Nat)
    (rng rng2 rng3 : RNG) (g0 xf : Value) (h : List HistRec)
    (lines : List String) :
    (gd.getGradient (.scalar r) = some g0 →
      normLt (promote (vscale lr g0)) eps = true →
      gd.optimize (some (.scalar r)) lr (n + 1) eps shape rng =
        some ((.scalar r, []), rng, [convergedMsg 0])) ∧
    (PreservesScalarShape gd →
      gd.optimize (some (.scalar r2)) lr2 m eps2 shape2 rng2 =
        some ((xf, h), rng3, lines) →
      h ≠ [] → ∃ s, xf = .arr [s]) := by
  constructor
  · intro hg hb
    simp only [GradientDescent.optimize, resolveStart]
    rw [optimizeLoop_succ, hg]
    simp [hb]
  · intro hp hrun hne
    simp only [GradientDescent.optimize, resolveStart] at hrun
    cases hrec : optimizeLoop gd lr2 eps2 m (.scalar r2) with
    | none => rw [hrec] at hrun; simp at hrun
    | some p =>
      obtain ⟨xf2, h2, c2⟩ := p
      rw [hrec] at hrun
      simp only [Option.some.injEq, Prod.mk.injEq] at hrun
      obtain ⟨⟨rfl, rfl⟩, -, -⟩ := hrun
      exact optimizeLoop_singleton gd lr2 eps2 hp m (.scalar r2) r2
        (Or.inl rfl) _ _ _ hrec hne

theorem c6_return_representation_witness :
    gdExplicit.optimize (some (.scalar 0)) (1 / 10) 1 1 none rng0 =
      some ((.scalar 0, []), rng0, [convergedMsg 0]) ∧
    ∃ s, (.arr [4 / 5] : Value) = .arr [s] := by
  have hc := c6_return_representation gdExplicit 0 1 (1 / 10) (1 / 10) 1
    (1 / 1000000) 0 1 none none rng0 rng0 rng0 (.scalar 0) (.arr [4 / 5])
    [⟨.arr [4 / 5], .scalar 2⟩] [notConvergedMsg 1]
  constructor
  · refine hc.1 ?_ ?_
    · have h2 := (gradTwoX_gdExplicit 0).1
      norm_num at h2
      exact h2
    · norm_num [normLt, promote, vscale, vmap, sumSq, Value.toList,
        List.sum_cons, List.sum_nil]
  · exact hc.2 preservesScalarShape_gdExplicit run1_eval (by simp)

/-- Any scalar-mode run of an optimizer whose gradient behaves as `2x` keeps
the magnitudes of the recorded points non-increasing. -/
theorem optimize_scalar_chain (gd : GradientDescent) (hg2 : GradTwoX gd)
    (lr eps : Q) (hl : 0 < lr) (hl1 : lr ≤ 1) (r : Q) (n : Nat)
    (shape : Option Nat) (rng rng2 : RNG) (xf : Value) (h : List HistRec)
    (lines : List String)
    (hrun : gd.optimize (some (.scalar r)) lr n eps shape rng =
      some ((xf, h), rng2, lines)) :
    List.Chain' (fun a b => |headVal b.x| ≤ |headVal a.x|) h := by
  simp only [GradientDescent.optimize, resolveStart] at hrun
  cases hrec : optimizeLoop gd lr eps n (.scalar r) with
  | none => rw [hrec] at hrun; simp at hrun
  | some p =>
    obtain ⟨xf2, h2, c2⟩ := p
    rw [hrec] at hrun
    simp only [Option.some.injEq, Prod.mk.injEq] at hrun
    obtain ⟨⟨rfl, rfl⟩, -, -⟩ := hrun
    exact (optimizeLoop_abs_mono gd lr eps hg2 hl hl1 n (.scalar r) r
      (Or.inl rfl) _ _ _ hrec).1

/-- C8: for the objective `x²` with scalar start `r ≠ 0` and
`0 < lr ≤ 1`, consecutive recorded history points have non-increasing
magnitude, both in finite-difference mode (`gdFD`) and with the explicit
gradient `2x` (`gdExplicit`). -/
theorem c8_abs_monotone (lr r eps eps2 : Q) (n m : Nat)
    (shape shape2 : Option Nat) (rng rng2 rng3 rng4 : RNG) (x1 x2 : Value)
    (h1 h2 : List HistRec) (l1 l2 : List String)
    (hl : 0 < lr) (hl1 : lr ≤ 1) (hr : r ≠ 0)
    (hrun1 : gdFD.optimize (some (.scalar r)) lr n eps shape rng =
      some ((x1, h1), rng3, l1))
    (hrun2 : gdExplicit.optimize (some (.scalar r)) lr m eps2 shape2 rng2 =
      some ((x2, h2), rng4, l2)) :
    List.Chain' (fun a b => |headVal b.x| ≤ |headVal a.x|) h1 ∧
    List.Chain' (fun a b => |headVal b.x| ≤ |headVal a.x|) h2 :=
  ⟨optimize_scalar_chain gdFD gradTwoX_gdFD lr eps hl hl1 r n shape rng rng3
      x1 h1 l1 hrun1,
    optimize_scalar_chain gdExplicit gradTwoX_gdExplicit lr eps2 hl hl1 r m
      shape2 rng2 rng4 x2 h2 l2 hrun2⟩

theorem c8_abs_monotone_witness :
    List.Chain' (fun a b => |headVal b.x| ≤ |headVal a.x|)
      [(⟨.arr [4 / 5], .scalar 2⟩ : HistRec)] ∧
    List.Chain' (fun a b => |headVal b.x| ≤ |headVal a.x|)
      [(⟨.arr [4 / 5], .scalar 2⟩ : HistRec)] :=
  c8_abs_monotone (1 / 10) 1 (1 / 1000000) (1 / 1000000) 1 1 none none
    rng0 rng0 rng0 rng0 (.arr [4 / 5]) (.arr [4 / 5])
    [⟨.arr [4 / 5], .scalar 2⟩] [⟨.arr [4 / 5], .scalar 2⟩]
    [notConvergedMsg 1] [notConvergedMsg 1]
    (by norm_num) (by norm_num) (by norm_num) run1_fd_eval run1_eval

/-- C10: whenever `optimize` returns, the returned point equals the `x`
field of the last history record (when the history is non-empty), and
consecutive records satisfy `x_i = x_{i-1} − lr·grad_i` (`stepRel`). -/
theorem c10_history_consistency (gd : GradientDescent) (start : Option Value)
    (lr eps : Q) (n : Nat) (shape : Option Nat) (rng rng2 : RNG) (xf : Value)
    (h : List HistRec) (lines : List String)
    (hrun : gd.optimize start lr n eps shape rng =
      some ((xf, h), rng2, lines)) :
    (∀ b, h.getLast? = some b → xf = b.x) ∧ List.Chain' (stepRel lr) h := by
  simp only [GradientDescent.optimize] at hrun
  cases hrec : optimizeLoop gd lr eps n (resolveStart start shape rng).1 with
  | none => rw [hrec] at hrun; simp at hrun
  | some p =>
    obtain ⟨xf2, h2, c2⟩ := p
    rw [hrec] at hrun
    simp only [Option.some.injEq, Prod.mk.injEq] at hrun
    obtain ⟨⟨rfl, rfl⟩, -, -⟩ := hrun
    obtain ⟨hch, -, hlast, -⟩ := optimizeLoop_chain gd lr eps n _ _ _ _ hrec
    exact ⟨hlast, hch⟩

theorem c10_history_consistency_witness :
    (∀ b, ([(⟨.arr [4 / 5], .scalar 2⟩ : HistRec)] : List HistRec).getLast? =
        some b → (.arr [4 / 5] : Value) = b.x) ∧
    List.Chain' (stepRel (1 / 10)) [⟨.arr [4 / 5], .scalar 2⟩] :=
  c10_history_consistency gdExplicit (some (.scalar 1)) (1 / 10)
    (1 / 1000000) 1 none rng0 rng0 (.arr [4 / 5])
    [⟨.arr [4 / 5], .scalar 2⟩] [notConvergedMsg 1] run1_eval

/-- C7 (amended): a call to `optimize` prints exactly one status line, and
when `start` is supplied it touches no shared state (the global random source
is returned unchanged); but when `start` is absent the process-wide random
source *is* touched: its cursor advances by one scalar draw (no `shape`) or by
`k` draws (`shape = k`). -/
theorem c7_amended_side_effects (gd : GradientDescent) (start : Option Value)
    (lr eps : Q) (n : Nat) (shape : Option Nat) (rng : RNG) (hv : Valid gd) :
    ∃ res rng2 lines,
      gd.optimize start lr n eps shape rng = some (res, rng2, lines) ∧
      lines.length = 1 ∧
      (∀ v, start = some v → rng2 = rng) ∧
      (start = none → shape = none → rng2.idx = rng.idx + 1) ∧
      (∀ k, start = none → shape = some k → rng2.idx = rng.idx + k) := by
  obtain ⟨xf, h, c, hloop⟩ :=
    optimizeLoop_total gd hv lr eps n (resolveStart start shape rng).1
  refine ⟨(xf, h), (resolveStart start shape rng).2,
    if c then [convergedMsg h.length] else [notConvergedMsg n],
    ?_, ?_, ?_, ?_, ?_⟩
  · simp only [GradientDescent.optimize, hloop]
  · cases c <;> simp
  · intro v hs
    subst hs
    rfl
  · intro h1 h2
    subst h1
    subst h2
    simp [resolveStart, RNG.draw]
  · intro k h1 h2
    subst h1
    subst h2
    simp [resolveStart, RNG.draw]

theorem c7_amended_side_effects_witness :
    ∃ res rng2 lines,
      gdExplicit.optimize none 1 1 1 none rng0 = some (res, rng2, lines) ∧
      lines.length = 1 ∧
      (∀ v, (none : Option Value) = some v → rng2 = rng0) ∧
      ((none : Option Value) = none → (none : Option Nat) = none →
        rng2.idx = rng0.idx + 1) ∧
      (∀ k, (none : Option Value) = none → (none : Option Nat) = some k →
        rng2.idx = rng0.idx + k) :=
  c7_amended_side_effects gdExplicit none 1 1 1 none rng0 (Or.inl rfl)

/-- C7 (counterexample to the claim as stated): a call with `start`
absent does touch shared global state — the process-wide random source's
cursor has advanced when the call returns. -/
theorem c7_counterexample :
    ∃ res rng2 lines,
      gdExplicit.optimize none 1 1 1 none rng0 = some (res, rng2, lines) ∧
      rng2 ≠ rng0 := by
  refine ⟨(.scalar 0, []), { stream := fun _ => (0 : Q), idx := 1 },
    [convergedMsg 0], ?_, ?_⟩
  · simp only [GradientDescent.optimize, resolveStart, RNG.draw, rng0]
    norm_num [List.range_succ]
    rw [loop_zero_point_eval]
    simp
  · intro hEq
    have h2 := congrArg RNG.idx hEq
    simp [rng0] at h2

end GradientDescentBasics
